import Mathlib

/-!
Verification of the levanter training-core specification against a shallow
embedding of the repository's source.

Conventions of the embedding:
- Machine floating-point arithmetic is idealized as exact rational (`ℚ`) or
  real (`ℝ`) arithmetic, matching the spec's "in exact arithmetic" reading.
- A parameter tree (`jax` pytree) is modelled by a single rational leaf:
  `jax.tree_map` of a binary operation becomes the scalar operation, and
  `jnp.zeros_like model` becomes `0`.  All tree operations in the source are
  leafwise, so nothing in the verified claims depends on the tree shape.
- Batched arrays with a leading batch axis are modelled as `List`s; `reshape`
  is modelled by its row-major index arithmetic (`drop`/`take`).
-/

namespace ModelingUtils

/-- Modelled from the spec: `levanter.jax_utils.reduce` (not under `src/`) is
the fold of an accumulation function over the leading batch axis of the
inputs, threading an accumulator from an initial value. -/
def reduce {A X : Type} (step : A → X → A) (zero : A) (inputs : List X) : A :=
  inputs.foldl step zero

/-- Embedding of `accumulate_gradients` (src/src/levanter/modeling_utils.py,
lines 49-59): folds `compute_and_accumulate` over the examples starting from
`(0, zeros_like model, 0)`, then divides the accumulated loss and gradient by
the example count `total_n`.  The parameter tree is one rational leaf. -/
def accumulate_gradients {X : Type} (f : ℚ → X → ℚ × ℚ) (model : ℚ)
    (inputs : List X) : ℚ × ℚ :=
  let zero : ℚ × ℚ × ℕ := (0, 0, 0)
  let compute_and_accumulate : ℚ × ℚ × ℕ → X → ℚ × ℚ × ℕ := fun acc input =>
    ((f model input).1 + acc.1, (acc.2.1 + (f model input).2, acc.2.2 + 1))
  let r := reduce compute_and_accumulate zero inputs
  (r.1 / (r.2.2 : ℚ), r.2.1 / (r.2.2 : ℚ))

/-- Embedding of `accumulate_gradients_sharded`
(src/src/levanter/modeling_utils.py, lines 64-116).

- `batch_size = len(inputs)`, `microbatch_size = data_axis_size *
  per_device_parallelism`, `num_micro_steps = batch_size // microbatch_size`.
- The `assert num_micro_steps * microbatch_size == batch_size` is modelled as
  an `Option`: `none` is the configuration error, raised before any
  invocation of `f`.
- The row-major `reshape` to `(microbatch_size, num_micro_steps)` makes lane
  `i` the slice `inputs[i * num_micro_steps : (i+1) * num_micro_steps]`.
- `hax.vmap accumulate_gradients` over the `Microbatch` lane axis runs
  `accumulate_gradients` on each lane; `jnp.mean(losses)` and
  `hax.mean(grads, Microbatch)` are the means over the lane results. -/
def accumulate_gradients_sharded {X : Type} (f : ℚ → X → ℚ × ℚ) (model : ℚ)
    (inputs : List X) (data_axis_size per_device_parallelism : ℕ) :
    Option (ℚ × ℚ) :=
  let batch_size := inputs.length
  let microbatch_size := data_axis_size * per_device_parallelism
  let num_micro_steps := batch_size / microbatch_size
  if num_micro_steps * microbatch_size = batch_size then
    let lanes := (List.range microbatch_size).map
      (fun i => (inputs.drop (i * num_micro_steps)).take num_micro_steps)
    let results := lanes.map (accumulate_gradients f model)
    let losses := results.map Prod.fst
    let grads := results.map Prod.snd
    some (losses.sum / (losses.length : ℚ), grads.sum / (grads.length : ℚ))
  else
    none

theorem accumulate_gradients_foldl {X : Type} (f : ℚ → X → ℚ × ℚ) (model : ℚ)
    (l : List X) (a b : ℚ) (n : ℕ) :
    l.foldl (fun acc input =>
        ((f model input).1 + acc.1, (acc.2.1 + (f model input).2, acc.2.2 + 1)))
        (a, b, n)
      = (a + (l.map (fun x => (f model x).1)).sum,
         (b + (l.map (fun x => (f model x).2)).sum, n + l.length)) := by
  induction l generalizing a b n with
  | nil => simp
  | cons x xs ih =>
    simp only [List.foldl_cons, List.map_cons, List.sum_cons, List.length_cons, ih]
    refine Prod.ext ?_ (Prod.ext ?_ ?_) <;> simp <;> ring

/-- Evaluation of `accumulate_gradients`: it returns the sum of the
per-example losses and gradients, each divided by the example count. -/
theorem accumulate_gradients_eval {X : Type} (f : ℚ → X → ℚ × ℚ) (model : ℚ)
    (l : List X) :
    accumulate_gradients f model l
      = ((l.map (fun x => (f model x).1)).sum / (l.length : ℚ),
         (l.map (fun x => (f model x).2)).sum / (l.length : ℚ)) := by
  have h := accumulate_gradients_foldl f model l 0 0 0
  simp only [accumulate_gradients, reduce]
  rw [h]
  simp

theorem sum_chunks (s : ℕ) :
    ∀ (m : ℕ) (l : List ℚ), l.length = m * s →
      ((List.range m).map (fun i => ((l.drop (i * s)).take s).sum)).sum = l.sum := by
  intro m
  induction m with
  | zero =>
    intro l hl
    simp at hl
    simp [hl]
  | succ m ih =>
    intro l hl
    have hdl : (l.drop s).length = m * s := by
      simp [List.length_drop, hl, Nat.succ_mul]
    have hrest := ih (l.drop s) hdl
    rw [List.range_succ_eq_map]
    simp only [List.map_cons, List.sum_cons, List.map_map]
    have hshift : ∀ j : ℕ, ((l.drop ((j + 1) * s)).take s).sum
        = (((l.drop s).drop (j * s)).take s).sum := by
      intro j
      rw [List.drop_drop]
      ring_nf
    have hmapeq :
        (List.map ((fun i => ((l.drop (i * s)).take s).sum) ∘ Nat.succ) (List.range m)).sum
          = ((List.range m).map (fun i => (((l.drop s).drop (i * s)).take s).sum)).sum := by
      congr 1
      refine List.map_congr_left ?_
      intro j _
      simp only [Function.comp_apply, Nat.succ_eq_add_one]
      exact hshift j
    rw [Nat.zero_mul, List.drop_zero] at *
    calc (l.take s).sum
          + (List.map ((fun i => ((l.drop (i * s)).take s).sum) ∘ Nat.succ) (List.range m)).sum
        = (l.take s).sum + ((l.drop s)).sum := by rw [hmapeq, hrest]
      _ = l.sum := by rw [← List.sum_append, List.take_append_drop]

theorem list_map_sum_div (L : List ℕ) (c : ℕ → ℚ) (q : ℚ) :
    (L.map (fun i => c i / q)).sum = (L.map c).sum / q := by
  induction L with
  | nil => simp
  | cons x xs ih => simp [ih, add_div]

/-- Evaluation of `accumulate_gradients_sharded` on a batch whose size is a
positive multiple of `data_axis_size * per_device_parallelism`: it returns the
sums of the per-example losses and gradients divided by the batch size. -/
theorem accumulate_gradients_sharded_eval {X : Type} (f : ℚ → X → ℚ × ℚ)
    (model : ℚ) (l : List X) (d p : ℕ) (hpos : 0 < d * p)
    (hdvd : d * p ∣ l.length) :
    accumulate_gradients_sharded f model l d p
      = some ((l.map (fun x => (f model x).1)).sum / (l.length : ℚ),
              (l.map (fun x => (f model x).2)).sum / (l.length : ℚ)) := by
  obtain ⟨s, hlen⟩ := hdvd
  have hsdiv : l.length / (d * p) = s := by
    rw [hlen]
    exact Nat.mul_div_cancel_left s hpos
  have hcond : s * (d * p) = l.length := by rw [hlen]; ring
  have hlane_len : ∀ i, i < d * p → ((l.drop (i * s)).take s).length = s := by
    intro i hi
    have h1 : (i + 1) * s ≤ (d * p) * s := Nat.mul_le_mul_right s hi
    have h2 : i * s + s ≤ l.length := by
      rw [hlen]
      calc i * s + s = (i + 1) * s := by ring
        _ ≤ (d * p) * s := h1
    simp only [List.length_take, List.length_drop]
    omega
  have key : ∀ g : X → ℚ,
      ((List.range (d * p)).map
          (fun i => (((l.drop (i * s)).take s).map g).sum / (s : ℚ))).sum
          / ((d * p : ℕ) : ℚ)
        = (l.map g).sum / (l.length : ℚ) := by
    intro g
    have hchunks := sum_chunks s (d * p) (l.map g) (by simp [hlen])
    have hmapc : ∀ i : ℕ,
        ((l.drop (i * s)).take s).map g = (((l.map g)).drop (i * s)).take s := by
      intro i
      rw [List.map_take, List.map_drop]
    have hnum : ((List.range (d * p)).map
        (fun i => (((l.drop (i * s)).take s).map g).sum)).sum = (l.map g).sum := by
      rw [← hchunks]
      refine congrArg List.sum (List.map_congr_left ?_)
      intro i _
      rw [hmapc]
    rw [list_map_sum_div, hnum, div_div]
    congr 1
    push_cast [← hcond]
    ring
  dsimp only [accumulate_gradients_sharded]
  rw [hsdiv, if_pos hcond]
  simp only [List.map_map, Function.comp_def]
  have hfst : (List.range (d * p)).map
        (fun i => (accumulate_gradients f model ((l.drop (i * s)).take s)).1)
      = (List.range (d * p)).map
        (fun i => (((l.drop (i * s)).take s).map (fun x => (f model x).1)).sum
          / (s : ℚ)) := by
    refine List.map_congr_left ?_
    intro i hi
    rw [accumulate_gradients_eval]
    rw [hlane_len i (List.mem_range.mp hi)]
  have hsnd : (List.range (d * p)).map
        (fun i => (accumulate_gradients f model ((l.drop (i * s)).take s)).2)
      = (List.range (d * p)).map
        (fun i => (((l.drop (i * s)).take s).map (fun x => (f model x).2)).sum
          / (s : ℚ)) := by
    refine List.map_congr_left ?_
    intro i hi
    rw [accumulate_gradients_eval]
    rw [hlane_len i (List.mem_range.mp hi)]
  rw [hfst, hsnd]
  simp only [List.length_map, List.length_range]
  rw [key (fun x => (f model x).1), key (fun x => (f model x).2)]

/-- C1: for every batch whose size `B` is a positive multiple of
`data_axis_size * per_device_parallelism`, `accumulate_gradients_sharded`
returns `(mean_loss, mean_grad)` where both are the sum of the per-example
losses/gradients divided by the total example count `B`, not by
`num_microbatches`. -/
theorem accumulate_gradients_sharded_mean_by_total_count {X : Type}
    (f : ℚ → X → ℚ × ℚ) (model : ℚ) (l : List X) (d p : ℕ)
    (hpos : 0 < d * p) (hdvd : d * p ∣ l.length) :
    accumulate_gradients_sharded f model l d p
      = some ((l.map (fun x => (f model x).1)).sum / (l.length : ℚ),
              (l.map (fun x => (f model x).2)).sum / (l.length : ℚ)) :=
  accumulate_gradients_sharded_eval f model l d p hpos hdvd

/-- Witness for C1, the spec's scenario: `B = 8`, `data_axis_size = 2`,
`per_device_parallelism = 2`, per-example loss `[1..8]` and per-example
gradient `i` for example `i` yield `mean_loss = mean_grad = 9/2 = 4.5`. -/
theorem accumulate_gradients_sharded_mean_by_total_count_witness :
    (0 : ℕ) < 2 * 2 ∧ 2 * 2 ∣ ([(1 : ℚ), 2, 3, 4, 5, 6, 7, 8]).length ∧
    accumulate_gradients_sharded (fun _ x => (x, x)) 0
        [(1 : ℚ), 2, 3, 4, 5, 6, 7, 8] 2 2
      = some ((9 : ℚ) / 2, (9 : ℚ) / 2) := by
  refine ⟨by decide, by decide, ?_⟩
  rw [accumulate_gradients_sharded_mean_by_total_count (fun _ x => (x, x)) 0
    [(1 : ℚ), 2, 3, 4, 5, 6, 7, 8] 2 2 (by decide) (by decide)]
  norm_num

/-- C2: with a positive microbatch size, `accumulate_gradients_sharded`
returns the configuration error (`none`) exactly when the batch size is not
divisible by `data_axis_size * per_device_parallelism`; the error is
independent of the loss-and-gradient function `f`, which is therefore never
invoked, and no such error occurs when the batch size is divisible. -/
theorem accumulate_gradients_sharded_divisibility_guard {X : Type}
    (f : ℚ → X → ℚ × ℚ) (model : ℚ) (l : List X) (d p : ℕ)
    (_hpos : 0 < d * p) :
    ((accumulate_gradients_sharded f model l d p).isSome ↔ d * p ∣ l.length) ∧
    (¬ d * p ∣ l.length →
      ∀ g : ℚ → X → ℚ × ℚ, accumulate_gradients_sharded g model l d p = none) := by
  have hne : ¬ d * p ∣ l.length → ¬ l.length / (d * p) * (d * p) = l.length := by
    intro hd h
    exact hd (Dvd.intro (l.length / (d * p))
      (by rw [Nat.mul_comm (d * p) (l.length / (d * p))]; exact h))
  constructor
  · by_cases hd : d * p ∣ l.length
    · dsimp only [accumulate_gradients_sharded]
      rw [if_pos (Nat.div_mul_cancel hd)]
      simp [hd]
    · dsimp only [accumulate_gradients_sharded]
      rw [if_neg (hne hd)]
      simp [hd]
  · intro hd g
    dsimp only [accumulate_gradients_sharded]
    rw [if_neg (hne hd)]

/-- Witness for C2: batch size 6 is not divisible by the microbatch size
`2 * 2 = 4`, so the accumulator fails with the configuration error no matter
which loss-and-gradient function is supplied. -/
theorem accumulate_gradients_sharded_divisibility_guard_witness :
    (0 : ℕ) < 2 * 2 ∧
    accumulate_gradients_sharded (fun _ _ => ((0 : ℚ), (0 : ℚ))) (0 : ℚ)
        [(1 : ℚ), 2, 3, 4, 5, 6] 2 2 = none :=
  ⟨by decide,
    (accumulate_gradients_sharded_divisibility_guard (fun _ x => (x, x)) 0
      [(1 : ℚ), 2, 3, 4, 5, 6] 2 2 (by decide)).2 (by decide)
      (fun _ _ => (0, 0))⟩

/-- C3: for a fixed loss-and-gradient function, model and batch, the result
of `accumulate_gradients_sharded` is independent of the choice of
`per_device_parallelism` (whenever the divisibility precondition holds), and
equals the single full-batch computation `accumulate_gradients` over the
whole batch (the no-microbatching case). -/
theorem accumulate_gradients_sharded_invariant_to_parallelism {X : Type}
    (f : ℚ → X → ℚ × ℚ) (model : ℚ) (l : List X) (d p1 p2 : ℕ)
    (h1 : 0 < d * p1) (h2 : 0 < d * p2)
    (hd1 : d * p1 ∣ l.length) (hd2 : d * p2 ∣ l.length) :
    accumulate_gradients_sharded f model l d p1
        = accumulate_gradients_sharded f model l d p2 ∧
    accumulate_gradients_sharded f model l d p1
        = some (accumulate_gradients f model l) := by
  rw [accumulate_gradients_sharded_eval f model l d p1 h1 hd1,
    accumulate_gradients_sharded_eval f model l d p2 h2 hd2,
    accumulate_gradients_eval]
  exact ⟨rfl, rfl⟩

/-- Witness for C3: on a batch of 8 examples with `data_axis_size = 2`,
`per_device_parallelism = 1` (4 microbatches) and `per_device_parallelism =
4` (1 microbatch, the full-batch case) give the same mean loss and gradient,
equal to the unsharded full-batch `accumulate_gradients`. -/
theorem accumulate_gradients_sharded_invariant_to_parallelism_witness :
    accumulate_gradients_sharded (fun _ x => (2 * x, x + 1)) (0 : ℚ)
        [(1 : ℚ), 2, 3, 4, 5, 6, 7, 8] 2 1
      = accumulate_gradients_sharded (fun _ x => (2 * x, x + 1)) 0
        [(1 : ℚ), 2, 3, 4, 5, 6, 7, 8] 2 4 ∧
    accumulate_gradients_sharded (fun _ x => (2 * x, x + 1)) (0 : ℚ)
        [(1 : ℚ), 2, 3, 4, 5, 6, 7, 8] 2 1
      = some (accumulate_gradients (fun _ x => (2 * x, x + 1)) 0
        [(1 : ℚ), 2, 3, 4, 5, 6, 7, 8]) :=
  accumulate_gradients_sharded_invariant_to_parallelism _ _ _ 2 1 4
    (by decide) (by decide) (by decide) (by decide)

/-- Embedding of `hax.nn.logsumexp` over the `Label` axis, in exact real
arithmetic: the log of the sum of the exponentials of the logits. -/
noncomputable def logsumexp {n : ℕ} (pred_y : Fin n → ℝ) : ℝ :=
  Real.log (∑ i, Real.exp (pred_y i))

/-- Embedding of `hax.nn.one_hot`: the target vector selecting index `t`. -/
def one_hot {n : ℕ} (t : Fin n) : Fin n → ℝ :=
  fun i => if i = t then 1 else 0

/-- Embedding of `cross_entropy_loss_and_log_normalizers`
(src/src/levanter/modeling_utils.py, lines 134-153): the log normalizers are
`logsumexp pred_y`, `neg_log_normalized = log_normalizers - pred_y`, and the
loss is the dot product of the targets with `neg_log_normalized` over the
`Label` axis. -/
noncomputable def cross_entropy_loss_and_log_normalizers {n : ℕ}
    (pred_y : Fin n → ℝ) (target_y : Fin n → ℝ) : ℝ × ℝ :=
  let log_normalizers := logsumexp pred_y
  let neg_log_normalized := fun i => log_normalizers - pred_y i
  let loss := ∑ i, target_y i * neg_log_normalized i
  (loss, log_normalizers)

/-- Embedding of `cross_entropy_loss` (src/src/levanter/modeling_utils.py,
lines 156-162): the first component of
`cross_entropy_loss_and_log_normalizers`. -/
noncomputable def cross_entropy_loss {n : ℕ}
    (pred_y : Fin n → ℝ) (target_y : Fin n → ℝ) : ℝ :=
  (cross_entropy_loss_and_log_normalizers pred_y target_y).1

/-- C10: for every logits vector `pred_y` over the `Label` axis and every
one-hot target selecting index `t`, `cross_entropy_loss` returns
`logsumexp pred_y - pred_y t`, which in exact real arithmetic is always
non-negative. -/
theorem cross_entropy_loss_one_hot_nonneg {n : ℕ} (pred_y : Fin n → ℝ)
    (t : Fin n) :
    cross_entropy_loss pred_y (one_hot t) = logsumexp pred_y - pred_y t ∧
    0 ≤ cross_entropy_loss pred_y (one_hot t) := by
  have heval : cross_entropy_loss pred_y (one_hot t)
      = logsumexp pred_y - pred_y t := by
    dsimp only [cross_entropy_loss, cross_entropy_loss_and_log_normalizers,
      one_hot]
    rw [Finset.sum_eq_single t]
    · simp
    · intro i _ hne
      simp [hne]
    · intro h
      exact absurd (Finset.mem_univ t) h
  refine ⟨heval, ?_⟩
  rw [heval, sub_nonneg]
  have hpos : (0 : ℝ) < ∑ i, Real.exp (pred_y i) :=
    Finset.sum_pos (fun i _ => Real.exp_pos (pred_y i)) ⟨t, Finset.mem_univ t⟩
  have hle : Real.exp (pred_y t) ≤ ∑ i, Real.exp (pred_y i) :=
    Finset.single_le_sum (fun i _ => (Real.exp_pos (pred_y i)).le)
      (Finset.mem_univ t)
  exact (Real.le_log_iff_exp_le hpos).mpr hle

end ModelingUtils

namespace InstructionTune

/-- Observable events of the two-phase instruction-tuning loop
(src/projects/instruction_tuning/instruction_tune.py): a per-step metrics log
carrying the phase tag (the `wandb.log` with a phase number at each step),
and a direct `checkpointer.save_checkpoint` call carrying its tag and the
step index recorded in the StepInfo it receives. -/
inductive IEvent where
  | step_log (step : ℕ) (phase : ℕ)
  | save_checkpoint (tag : String) (step : ℕ)
deriving DecidableEq

/-- Embedding of the two-phase structure of `main`
(src/projects/instruction_tuning/instruction_tune.py, lines 154-227):
`ul2r_steps = int(num_train_steps * ul2r_phase_fraction)` (truncation of a
non-negative product, i.e. the floor); phase 1 runs steps
`0 .. ul2r_steps - 1` logging phase `1`; if `ul2r_steps > 0` a checkpoint is
saved unconditionally under the tag `"ul2r_finished"` with the last phase-1
step index; phase 2 runs steps `ul2r_steps .. num_train_steps - 1` logging
phase `2`. -/
def main_trace (num_train_steps : ℕ) (ul2r_phase_fraction : ℚ) : List IEvent :=
  let ul2r_steps := (⌊(num_train_steps : ℚ) * ul2r_phase_fraction⌋).toNat
  ((List.range ul2r_steps).map fun step => IEvent.step_log step 1) ++
  (if 0 < ul2r_steps
    then [IEvent.save_checkpoint "ul2r_finished" (ul2r_steps - 1)]
    else []) ++
  ((List.range (num_train_steps - ul2r_steps)).map
    fun i => IEvent.step_log (ul2r_steps + i) 2)

/-- Decides whether the trace contains a `save_checkpoint` event under the
given tag. -/
def has_ckpt_tag (t : String) (tr : List IEvent) : Bool :=
  tr.any fun e =>
    match e with
    | IEvent.save_checkpoint tag _ => tag == t
    | _ => false

/-- Counterexample for C6: in the two-phase run with
`ul2r_phase_fraction = 1/2` and `num_train_steps = 10`, no checkpoint is
saved under the tag `"phase-boundary"`; the phase-boundary checkpoint the
code saves is tagged `"ul2r_finished"`. -/
theorem c6_phase_boundary_tag_refuted :
    has_ckpt_tag "phase-boundary" (main_trace 10 (1 / 2)) = false ∧
    has_ckpt_tag "ul2r_finished" (main_trace 10 (1 / 2)) = true := by
  have h1 : ⌊((10 : ℕ) : ℚ) * (1 / 2)⌋ = 5 := by norm_num
  constructor <;> (dsimp only [has_ckpt_tag, main_trace]; rw [h1]; decide)

/-- C6 (amended): with `ul2r_phase_fraction = 1/2` and
`num_train_steps = 10`, exactly 5 steps run in phase 1 (tagged phase 1),
then a checkpoint tagged `"ul2r_finished"` is forcibly saved at the phase
boundary, then exactly 5 steps run in phase 2 (tagged phase 2). -/
theorem two_phase_trace_10_half :
    main_trace 10 (1 / 2) =
      [IEvent.step_log 0 1, IEvent.step_log 1 1, IEvent.step_log 2 1,
       IEvent.step_log 3 1, IEvent.step_log 4 1,
       IEvent.save_checkpoint "ul2r_finished" 4,
       IEvent.step_log 5 2, IEvent.step_log 6 2, IEvent.step_log 7 2,
       IEvent.step_log 8 2, IEvent.step_log 9 2] := by
  have h1 : ⌊((10 : ℕ) : ℚ) * (1 / 2)⌋ = 5 := by norm_num
  dsimp only [main_trace]
  rw [h1]
  decide

/-- The two iterators the phase-2 sampler draws from. -/
inductive Choice where
  | instruction
  | base
deriving DecidableEq

/-- Positions of the two iterators consumed by the phase-2 sampler: the
instruction-dataset iterator (`iter_itune`, advanced by `train_batch_size`
examples per instruction batch) and the phase-1 iterator (`iter_data`,
advanced by one batch). -/
structure SamplerState where
  itune_pos : ℕ
  base_pos : ℕ
deriving DecidableEq

/-- Embedding of one iteration of `batch_sampler`
(src/projects/instruction_tuning/instruction_tune.py, lines 182-204): draw
`u = prng.uniform()`; if `u < instruction_weight` build a batch of
`train_batch_size` examples from the instruction iterator, otherwise yield
the next batch of the phase-1 iterator. -/
def batch_sampler_step (instruction_weight : ℚ) (train_batch_size : ℕ)
    (u : ℚ) (st : SamplerState) : Choice × SamplerState :=
  if u < instruction_weight then
    (Choice.instruction, ⟨st.itune_pos + train_batch_size, st.base_pos⟩)
  else
    (Choice.base, ⟨st.itune_pos, st.base_pos + 1⟩)

/-- Iterator state of `batch_sampler` before step `n`, given the stream of
per-step uniform draws. -/
def batch_sampler_states (instruction_weight : ℚ) (train_batch_size : ℕ)
    (draws : ℕ → ℚ) : ℕ → SamplerState
  | 0 => ⟨0, 0⟩
  | n + 1 =>
    (batch_sampler_step instruction_weight train_batch_size (draws n)
      (batch_sampler_states instruction_weight train_batch_size draws n)).2

/-- The dataset `batch_sampler` draws from at step `n`. -/
def batch_sampler_choice (instruction_weight : ℚ) (train_batch_size : ℕ)
    (draws : ℕ → ℚ) (n : ℕ) : Choice :=
  (batch_sampler_step instruction_weight train_batch_size (draws n)
    (batch_sampler_states instruction_weight train_batch_size draws n)).1

/-- C7: in phase 2 each step's batch source is decided by that step's own
uniform draw: the instruction dataset is chosen when and only when the draw
is strictly less than `instruction_weight` (otherwise the phase-1 iterator is
used), and the choice at step `n` depends only on the `n`-th draw — a
per-step coin flip, not a deterministic interleave. -/
theorem batch_sampler_per_step_coin_flip (instruction_weight : ℚ)
    (train_batch_size : ℕ) (draws : ℕ → ℚ) (n : ℕ) :
    (batch_sampler_choice instruction_weight train_batch_size draws n
        = Choice.instruction ↔ draws n < instruction_weight) ∧
    (∀ draws2 : ℕ → ℚ, draws2 n = draws n →
      batch_sampler_choice instruction_weight train_batch_size draws2 n
        = batch_sampler_choice instruction_weight train_batch_size draws n) := by
  constructor
  · dsimp only [batch_sampler_choice, batch_sampler_step]
    by_cases h : draws n < instruction_weight
    · rw [if_pos h]
      simp [h]
    · rw [if_neg h]
      simp [h]
  · intro draws2 h2
    dsimp only [batch_sampler_choice, batch_sampler_step]
    rw [h2]
    split <;> rfl

end InstructionTune

namespace TrainLm

/-- Modelled from the spec: a `jax.random` PRNG key is a splittable
deterministic random-bit-stream token; `split` is a pure function producing
two independent child keys, modelled injectively on `ℕ`. -/
def split_key (k : ℕ) : ℕ × ℕ :=
  (2 * k + 1, 2 * k + 2)

/-- Modelled from the spec: `jrandom.split(jrandom.PRNGKey(seed), 4)`
(src/src/levanter/main/train_lm.py, line 89) — a pure four-way split of the
seed-derived root key into `(data_key, loader_key, model_key,
training_key)`. -/
def split_key4 (k : ℕ) : ℕ × ℕ × ℕ × ℕ :=
  (4 * k + 1, 4 * k + 2, 4 * k + 3, 4 * k + 4)

/-- The observable per-step record of the training loop: the `StepInfo`
fields relevant to the claims — the step index, the index of the batch
consumed from the cycled data iterator, the per-step key split off
`training_key`, the scalar loss, and the wall-clock step duration. -/
structure StepRec where
  step : ℕ
  batch_index : ℕ
  my_key : ℕ
  loss : ℚ
  duration : ℚ
deriving DecidableEq

/-- Events observed by the hook machinery of `main`
(src/src/levanter/main/train_lm.py): a dispatch of `engine.run_hooks`
carrying its step index, its `force` flag and the indices of the registered
callbacks it invokes, and a direct `checkpointer.on_step` call carrying its
step index and `force` flag. -/
inductive HookEvent where
  | dispatch (step : ℕ) (force : Bool) (invoked : List ℕ)
  | ckpt_on_step (step : ℕ) (force : Bool)
deriving DecidableEq

/-- Modelled from the spec: `TrainerHooks.run_hooks` (not under `src/`) — an
ordered registry of `(callback, every_n_steps)` pairs; on a dispatch it
invokes every callback whose cadence divides the step index, and a
`force=true` dispatch invokes all callbacks regardless of cadence.  Returns
the indices of the invoked callbacks; `hooks` is the list of registered
cadences. -/
def run_hooks (hooks : List ℕ) (step : ℕ) (force : Bool) : List ℕ :=
  (List.range hooks.length).filter fun i => force || step % hooks.getD i 1 == 0

def is_forced_event : HookEvent → Bool
  | HookEvent.dispatch _ f _ => f
  | HookEvent.ckpt_on_step _ f => f

/-- Embedding of the training loop of `main`
(src/src/levanter/main/train_lm.py, lines 289-301), by fuel on the number of
remaining steps.  Each iteration pulls `next(iter_data)` (the batch at the
current iterator position), splits `training_key` into `(my_key,
training_key)`, runs `train_step` on the batch with `my_key`, and records the
resulting `StepInfo` loss together with the step's wall-clock duration. -/
def run_training_steps {M O X : Type} (data : ℕ → X)
    (train_step : M → O → X → ℕ → ℚ × M × O) (durations : ℕ → ℚ) :
    ℕ → ℕ → ℕ → M → O → ℕ → List StepRec × M × O × ℕ
  | 0, _, _, m, o, key => ([], m, o, key)
  | fuel + 1, step, pos, m, o, key =>
    let ex := data pos
    let keys := split_key key
    let result := train_step m o ex keys.1
    let rest := run_training_steps data train_step durations fuel (step + 1)
      (pos + 1) result.2.1 result.2.2 keys.2
    (⟨step, pos, keys.1, result.1, durations step⟩ :: rest.1, rest.2)

/-- The outcome of one full run of `main`. -/
structure RunTrace (M O : Type) where
  discarded : ℕ
  initial_step : ℕ
  steps : List StepRec
  events : List HookEvent
  final_model : M
  final_opt : O
  final_key : ℕ
deriving DecidableEq

/-- Embedding of `main` (src/src/levanter/main/train_lm.py, lines 57-313),
restricted to the training-loop state machine the claims are about.

- `checkpoint` models the result of `maybe_load_checkpoint`: `some (model,
  opt_state, training_key, resume_step)` when a checkpoint exists, `none`
  for a fresh start (lines 202-223).
- On resume, exactly `resume_step + 1` batches are consumed and discarded
  from the freshly created cycled iterator (`for _ in range(resume_step + 1):
  next(iter_data)`, lines 273-280), so the loop's iterator position starts at
  `resume_step + 1` and `initial_step = resume_step + 1`; on a fresh start
  both are `0`.
- The loop runs steps `initial_step .. num_train_steps - 1`, dispatching
  `engine.run_hooks` (without force) after each step; after the loop it
  dispatches `engine.run_hooks(last_step, force=True)` and then
  `checkpointer.on_step(last_step, force=True)`, where `last_step` carries
  step index `num_train_steps` (lines 289-313).
- `durations` models the wall-clock (`capture_time`) environment, the only
  per-run input that is not a function of seed, config and data. -/
def main {M O X : Type} (hooks : List ℕ) (num_train_steps : ℕ) (data : ℕ → X)
    (train_step : M → O → X → ℕ → ℚ × M × O) (durations : ℕ → ℚ)
    (init_model : M) (init_opt : O) (seed : ℕ)
    (checkpoint : Option (M × O × ℕ × ℕ)) : RunTrace M O :=
  let training_key := (split_key4 seed).2.2.2
  let start : M × O × ℕ × ℕ :=
    match checkpoint with
    | some (m, o, k, resume_step) => (m, o, k, resume_step + 1)
    | none => (init_model, init_opt, training_key, 0)
  let initial_step := start.2.2.2
  let r := run_training_steps data train_step durations
    (num_train_steps - initial_step) initial_step initial_step
    start.1 start.2.1 start.2.2.1
  { discarded := initial_step
    initial_step := initial_step
    steps := r.1
    events :=
      (r.1.map fun s => HookEvent.dispatch s.step false
        (run_hooks hooks s.step false)) ++
      [HookEvent.dispatch num_train_steps true
        (run_hooks hooks num_train_steps true),
       HookEvent.ckpt_on_step num_train_steps true]
    final_model := r.2.1
    final_opt := r.2.2.1
    final_key := r.2.2.2 }

theorem run_training_steps_map_step {M O X : Type} (data : ℕ → X)
    (train_step : M → O → X → ℕ → ℚ × M × O) (durations : ℕ → ℚ) :
    ∀ (fuel step pos : ℕ) (m : M) (o : O) (key : ℕ),
      (run_training_steps data train_step durations fuel step pos m o key).1.map
          StepRec.step = List.range' step fuel ∧
      (run_training_steps data train_step durations fuel step pos m o key).1.map
          StepRec.batch_index = List.range' pos fuel := by
  intro fuel
  induction fuel with
  | zero => intro step pos m o key; simp [run_training_steps]
  | succ fuel ih =>
    intro step pos m o key
    dsimp only [run_training_steps]
    simp only [List.map_cons, List.range'_succ]
    constructor
    · rw [(ih (step + 1) (pos + 1) _ _ _).1]
    · rw [(ih (step + 1) (pos + 1) _ _ _).2]

theorem run_hooks_force_invokes_all (hooks : List ℕ) (step : ℕ) :
    run_hooks hooks step true = List.range hooks.length := by
  dsimp only [run_hooks]
  simp

theorem run_training_steps_losses_indep_durations {M O X : Type} (data : ℕ → X)
    (train_step : M → O → X → ℕ → ℚ × M × O) (dur1 dur2 : ℕ → ℚ) :
    ∀ (fuel step pos : ℕ) (m : M) (o : O) (key : ℕ),
      (run_training_steps data train_step dur1 fuel step pos m o key).1.map
          StepRec.loss
        = (run_training_steps data train_step dur2 fuel step pos m o key).1.map
          StepRec.loss := by
  intro fuel
  induction fuel with
  | zero => intro step pos m o key; simp [run_training_steps]
  | succ fuel ih =>
    intro step pos m o key
    dsimp only [run_training_steps]
    simp only [List.map_cons]
    rw [ih]

/-- C4: on startup with an existing checkpoint restoring `(model, opt_state,
training_key, resume_step)`, the loop consumes and discards exactly
`resume_step + 1` batches from the freshly created data iterator before
training, resumes at step `resume_step + 1`, and the remaining steps are
`resume_step + 1 .. num_train_steps - 1`, each step `i` consuming batch `i`
of the iterator (the identical data-pipeline position of an uninterrupted
run). -/
theorem resume_discards_and_resumes_at_succ {M O X : Type} (hooks : List ℕ)
    (num_train_steps : ℕ) (data : ℕ → X)
    (train_step : M → O → X → ℕ → ℚ × M × O) (durations : ℕ → ℚ)
    (init_model : M) (init_opt : O) (seed : ℕ) (m : M) (o : O)
    (k resume_step : ℕ) :
    (main hooks num_train_steps data train_step durations init_model init_opt
        seed (some (m, o, k, resume_step))).discarded = resume_step + 1 ∧
    (main hooks num_train_steps data train_step durations init_model init_opt
        seed (some (m, o, k, resume_step))).initial_step = resume_step + 1 ∧
    (main hooks num_train_steps data train_step durations init_model init_opt
        seed (some (m, o, k, resume_step))).steps.map StepRec.step
      = List.range' (resume_step + 1) (num_train_steps - (resume_step + 1)) ∧
    (main hooks num_train_steps data train_step durations init_model init_opt
        seed (some (m, o, k, resume_step))).steps.map StepRec.batch_index
      = List.range' (resume_step + 1) (num_train_steps - (resume_step + 1)) := by
  refine ⟨rfl, rfl, ?_, ?_⟩
  · exact (run_training_steps_map_step data train_step durations _ _ _ _ _ _).1
  · exact (run_training_steps_map_step data train_step durations _ _ _ _ _ _).2

/-- C5: in every run (any `num_train_steps`, including `0`, fresh or
resumed), the forced events are exactly one final `run_hooks` dispatch with
`force = true` at step `num_train_steps` — which invokes every registered
callback, bypassing cadence gating — followed by exactly one forced
`checkpointer.on_step`; every dispatch during the training steps has
`force = false`. -/
theorem final_hooks_forced_exactly_once {M O X : Type} (hooks : List ℕ)
    (num_train_steps : ℕ) (data : ℕ → X)
    (train_step : M → O → X → ℕ → ℚ × M × O) (durations : ℕ → ℚ)
    (init_model : M) (init_opt : O) (seed : ℕ)
    (checkpoint : Option (M × O × ℕ × ℕ)) :
    (main hooks num_train_steps data train_step durations init_model init_opt
          seed checkpoint).events.filter is_forced_event
      = [HookEvent.dispatch num_train_steps true (List.range hooks.length),
         HookEvent.ckpt_on_step num_train_steps true] ∧
    ∃ pre,
      (main hooks num_train_steps data train_step durations init_model init_opt
          seed checkpoint).events
        = pre ++
          [HookEvent.dispatch num_train_steps true (List.range hooks.length),
           HookEvent.ckpt_on_step num_train_steps true] ∧
      ∀ e ∈ pre, is_forced_event e = false := by
  have hev : (main hooks num_train_steps data train_step durations init_model
      init_opt seed checkpoint).events
      = ((main hooks num_train_steps data train_step durations init_model
          init_opt seed checkpoint).steps.map fun s =>
            HookEvent.dispatch s.step false (run_hooks hooks s.step false)) ++
        [HookEvent.dispatch num_train_steps true
          (run_hooks hooks num_train_steps true),
         HookEvent.ckpt_on_step num_train_steps true] := rfl
  have hpre : ∀ e ∈ (main hooks num_train_steps data train_step durations
      init_model init_opt seed checkpoint).steps.map fun s =>
        HookEvent.dispatch s.step false (run_hooks hooks s.step false),
      is_forced_event e = false := by
    intro e he
    obtain ⟨s, _, rfl⟩ := List.mem_map.mp he
    rfl
  constructor
  · rw [hev, List.filter_append]
    rw [List.filter_eq_nil_iff.mpr ?_, run_hooks_force_invokes_all]
    · rfl
    · intro e he
      simp [hpre e he]
  · refine ⟨_, ?_, hpre⟩
    rw [hev, run_hooks_force_invokes_all]

/-- C8: the sequence of per-step `StepInfo.loss` values of a full run is a
function of the seed, the configuration and the data source alone: two runs
with the same seed, config and data but different wall-clock environments
(the only other per-run input) produce identical loss sequences. -/
theorem loss_sequence_deterministic {M O X : Type} (hooks : List ℕ)
    (num_train_steps : ℕ) (data : ℕ → X)
    (train_step : M → O → X → ℕ → ℚ × M × O) (dur1 dur2 : ℕ → ℚ)
    (init_model : M) (init_opt : O) (seed : ℕ)
    (checkpoint : Option (M × O × ℕ × ℕ)) :
    (main hooks num_train_steps data train_step dur1 init_model init_opt seed
        checkpoint).steps.map StepRec.loss
      = (main hooks num_train_steps data train_step dur2 init_model init_opt
        seed checkpoint).steps.map StepRec.loss := by
  exact run_training_steps_losses_indep_durations data train_step dur1 dur2
    _ _ _ _ _ _

end TrainLm

namespace MixedPrecision

/-- The `jmp` mixed-precision policy of the trainer: three semantic dtype
slots, with dtypes modelled as abstract codes. -/
structure Policy where
  compute : ℕ
  param : ℕ
  output : ℕ
deriving DecidableEq

/-- A value tagged with the dtype it is stored in.  In the exact-arithmetic
idealization a cast changes only the dtype tag, never the value. -/
structure TVal where
  val : ℚ
  dtype : ℕ
deriving DecidableEq

def cast_to_compute (mp : Policy) (x : TVal) : TVal := ⟨x.val, mp.compute⟩

def cast_to_param (mp : Policy) (x : TVal) : TVal := ⟨x.val, mp.param⟩

def cast_to_output (mp : Policy) (x : TVal) : TVal := ⟨x.val, mp.output⟩

/-- Modelled from the spec: the model's forward pass (the external model
implementation) computes its activations in the dtype the model currently
has. -/
def forward {X : Type} (fwd : ℚ → X → ℚ) (model : TVal) (ex : X) : TVal :=
  ⟨fwd model.val ex, model.dtype⟩

/-- The dtypes observed at each stage of one `compute_loss` evaluation,
together with the resulting loss. -/
structure LossTrace where
  forward_model_dtype : ℕ
  pred_dtype_at_loss : ℕ
  target_dtype : ℕ
  loss : TVal
deriving DecidableEq

/-- Embedding of `compute_loss` (src/src/levanter/main/train_lm.py, lines
137-148): the model is cast to compute dtype, the forward pass runs on the
cast model, the predictions are cast to output dtype, the one-hot targets
are created at `pred_y.dtype`, and the cross-entropy reduction happens at
that dtype. -/
def compute_loss {X : Type} (mp : Policy) (fwd : ℚ → X → ℚ) (ce : ℚ → X → ℚ)
    (model : TVal) (ex : X) : LossTrace :=
  let model_c := cast_to_compute mp model
  let pred_y := forward fwd model_c ex
  let pred_y_o := cast_to_output mp pred_y
  { forward_model_dtype := model_c.dtype
    pred_dtype_at_loss := pred_y_o.dtype
    target_dtype := pred_y_o.dtype
    loss := ⟨ce pred_y_o.val ex, pred_y_o.dtype⟩ }

/-- Embedding of `init_model_and_opt_state` (src/src/levanter/main/
train_lm.py, lines 187-194): build the model, cast it to param dtype, then
initialize the optimizer state from the cast model. -/
def init_model_and_opt_state (mp : Policy) (build : ℕ → TVal)
    (opt_init : ℚ → ℚ) (model_key : ℕ) : TVal × ℚ :=
  let model := build model_key
  let model2 := cast_to_param mp model
  (model2, opt_init model2.val)

/-- Embedding of `eqx.apply_updates`: the updates are added to the stored
parameters, which keep their dtype. -/
def apply_updates (model : TVal) (updates : ℚ) : TVal :=
  ⟨model.val + updates, model.dtype⟩

/-- Embedding of `train_step` (src/src/levanter/main/train_lm.py, lines
156-176): compute loss and gradients (the gradient function is abstract at
the dtype level), ask the optimizer for updates, and apply them to the
model that was passed in — the cast inside `compute_loss` is local and the
updated parameters are the incoming ones. -/
def train_step {X : Type} (mp : Policy) (fwd : ℚ → X → ℚ) (ce : ℚ → X → ℚ)
    (grad : ℚ → X → ℚ) (opt_update : ℚ → ℚ → ℚ × ℚ) (model : TVal)
    (opt_state : ℚ) (ex : X) : ℚ × TVal × ℚ :=
  let loss := (compute_loss mp fwd ce model ex).loss
  let grads := grad model.val ex
  let uo := opt_update grads opt_state
  let model2 := apply_updates model uo.1
  (loss.val, model2, uo.2)

/-- The `(model, opt_state)` pair after `n` training steps, starting from
`init_model_and_opt_state`. -/
def models_over_steps {X : Type} (mp : Policy) (fwd : ℚ → X → ℚ)
    (ce : ℚ → X → ℚ) (grad : ℚ → X → ℚ) (opt_update : ℚ → ℚ → ℚ × ℚ)
    (build : ℕ → TVal) (opt_init : ℚ → ℚ) (model_key : ℕ) (exs : ℕ → X) :
    ℕ → TVal × ℚ
  | 0 => init_model_and_opt_state mp build opt_init model_key
  | n + 1 =>
    let s := models_over_steps mp fwd ce grad opt_update build opt_init
      model_key exs n
    let r := train_step mp fwd ce grad opt_update s.1 s.2 (exs n)
    (r.2.1, r.2.2)

/-- C9: the per-step loss computation preserves the mixed-precision
invariant — the forward pass always runs on a model cast to compute dtype,
the predictions are in output dtype when the cross-entropy reduction is
applied (so the loss is produced in output dtype), the model is cast to
param dtype at initialization, and the persisted parameters after every
training step are still in param dtype, updates being applied to the
param-dtype parameters. -/
theorem mixed_precision_invariant {X : Type} (mp : Policy)
    (fwd : ℚ → X → ℚ) (ce : ℚ → X → ℚ) (grad : ℚ → X → ℚ)
    (opt_update : ℚ → ℚ → ℚ × ℚ) (build : ℕ → TVal) (opt_init : ℚ → ℚ)
    (model_key : ℕ) (exs : ℕ → X) :
    (∀ (model : TVal) (ex : X),
      (compute_loss mp fwd ce model ex).forward_model_dtype = mp.compute ∧
      (compute_loss mp fwd ce model ex).pred_dtype_at_loss = mp.output ∧
      (compute_loss mp fwd ce model ex).loss.dtype = mp.output) ∧
    (init_model_and_opt_state mp build opt_init model_key).1.dtype
      = mp.param ∧
    (∀ n, (models_over_steps mp fwd ce grad opt_update build opt_init
      model_key exs n).1.dtype = mp.param) := by
  refine ⟨fun model ex => ⟨rfl, rfl, rfl⟩, rfl, ?_⟩
  intro n
  induction n with
  | zero => rfl
  | succ n ih =>
    dsimp only [models_over_steps, train_step, apply_updates]
    exact ih

end MixedPrecision
